import Mathlib

/-!
Verification of the geometry-deduplication script remove_duplicate_shapes.jsx.

The script removes duplicate vector paths in a document by hashing each
path's control-point geometry to a string key (pathToHash), extending the
hash to compound paths by sorting and joining the sub-path hashes
(compoundPathToHash), collecting eligible items by a recursive traversal
(collectPaths), and then, per hash group, keeping the first collected
member and removing the rest.

Embedding conventions:
- Coordinates are exact rationals, modelling the real-valued coordinates
  of the data model.
- JS Number.prototype.toFixed is modelled by toFixed below, following the
  ECMAScript algorithm: for the absolute value, the integer n closest to
  x times 10 to the f, ties picked larger, preceded by a minus sign for
  negative inputs. On the nonnegative branch this n equals the floor of
  (x * 10 ^ f + 1 / 2), computed here directly on the numerator and
  denominator so that everything reduces in the kernel.
- Array.prototype.join is modelled by joinSep.
- Array.prototype.sort with no comparator sorts strings by code-unit
  order; charsLe / strLe implement that comparison, and the sort itself is
  modelled by List.insertionSort with respect to it (the result of any
  comparison sort is uniquely determined, since the order is total,
  transitive and antisymmetric; see the sortStrings lemmas below).
- JS objects used as hash maps iterate string keys in insertion order
  (the keys produced here are never array indices, as every nonempty key
  contains a bar or comma character), which an association list models.
-/

/-- Decimal digit string of m left-padded with zeros to length f
(the padding step of the ECMAScript toFixed algorithm). -/
def padZeros (f : ℕ) (s : String) : String :=
  String.mk (List.replicate (f - s.length) '0') ++ s

/-- Rendering of the rounded scaled integer n with a decimal point f
digits from the right, as ECMAScript toFixed renders n / 10 ^ f. -/
def toFixedNat (f n : ℕ) : String :=
  if f = 0 then Nat.repr n
  else Nat.repr (n / 10 ^ f) ++ "." ++ padZeros f (Nat.repr (n % 10 ^ f))

/-- Model of JS Number.prototype.toFixed(f) on an exact rational: minus
sign for negatives, then the integer closest to abs x * 10 ^ f with ties
picked larger; (2 * a * 10 ^ f + d) / (2 * d) is the floor of
(a / d) * 10 ^ f + 1 / 2 in natural-number division. -/
def toFixed (f : ℕ) (x : ℚ) : String :=
  (if x.num < 0 then "-" else "") ++
    toFixedNat f ((2 * x.num.natAbs * 10 ^ f + x.den) / (2 * x.den))

/-- Model of Array.prototype.join(sep). -/
def joinSep (sep : String) : List String → String
  | [] => ""
  | [a] => a
  | a :: b :: rest => a ++ sep ++ joinSep sep (b :: rest)

/-- Code-unit comparison of character lists: less-or-equal in the order
JS uses for default string sorting. -/
def charsLe : List Char → List Char → Bool
  | [], _ => true
  | _ :: _, [] => false
  | a :: as, b :: bs => if a = b then charsLe as bs else decide (a < b)

/-- Code-unit less-or-equal on strings, as JS default sort compares. -/
def strLe (a b : String) : Bool := charsLe a.data b.data

/-- The comparison as a relation, for List.insertionSort. -/
def strLeProp (a b : String) : Prop := strLe a b = true

instance : DecidableRel strLeProp :=
  fun a b => instDecidableEqBool (strLe a b) true

/-- Point2D of the data model: a coordinate pair. -/
structure Point2D where
  x : ℚ
  y : ℚ
deriving DecidableEq

/-- PathPoint: anchor, the two direction handles, and the point-kind tag.
The tag is kept as the raw string the host would stringify it to, since
pathToHash joins it unrounded into the per-point token. -/
structure PathPoint where
  anchor : Point2D
  leftDirection : Point2D
  rightDirection : Point2D
  pointType : String
deriving DecidableEq

/-- SimpleShape (a PathItem): ordered control points plus the closed flag. -/
structure SimpleShape where
  pathPoints : List PathPoint
  closed : Bool
deriving DecidableEq

/-- CompoundShape (a CompoundPathItem): its ordered sub-paths. -/
structure CompoundShape where
  pathItems : List SimpleShape
deriving DecidableEq

/-- Per-point token of pathToHash: the seven fields (six coordinates at
the configured precision plus the raw point type) joined by commas. -/
def pointHash (precision : ℕ) (pt : PathPoint) : String :=
  joinSep ","
    [toFixed precision pt.anchor.x, toFixed precision pt.anchor.y,
     toFixed precision pt.leftDirection.x, toFixed precision pt.leftDirection.y,
     toFixed precision pt.rightDirection.x, toFixed precision pt.rightDirection.y,
     pt.pointType]

/-- Model of pathToHash: empty key for empty geometry, otherwise the
per-point tokens joined by semicolons followed by the closed/open marker
behind a bar. The source reads the precision from a script-level variable
defaulting to 1; it is threaded as a parameter here. -/
def pathToHash (precision : ℕ) (path : SimpleShape) : String :=
  if path.pathPoints.length = 0 then ""
  else
    joinSep ";" (path.pathPoints.map (pointHash precision)) ++ "|" ++
      (if path.closed then "closed" else "open")

/-- Model of compoundPathToHash: empty key for an empty sub-path list,
otherwise the sub-path hashes sorted by code-unit order and joined with
bars. -/
def compoundPathToHash (precision : ℕ) (compoundPath : CompoundShape) : String :=
  if compoundPath.pathItems.length = 0 then ""
  else
    joinSep "|"
      (List.insertionSort strLeProp (compoundPath.pathItems.map (pathToHash precision)))

/-- EligibilityFlags read during traversal and on selected items. -/
structure Flags where
  locked : Bool
  hidden : Bool
  guides : Bool
  clipping : Bool
deriving DecidableEq

/-- Flags that are all false. -/
def noFlags : Flags :=
  { locked := false, hidden := false, guides := false, clipping := false }

/-- Host page items as a tagged tree. A PathItem carries an identity and
its geometry; a CompoundPathItem carries an identity and its sub-path
list (its pathItems property); GroupItem and Layer carry their child
page items. In the host object model only Document, Layer and GroupItem
expose a pageItems collection, which is why the path and compound
variants carry no child page-item list: recursing into them finds no
pageItems property and collects nothing, exactly as the source's guard
returns early there. -/
inductive PageItem where
  | pathItem (flags : Flags) (id : ℕ) (shape : SimpleShape)
  | compoundPathItem (flags : Flags) (id : ℕ) (pathItems : List SimpleShape)
  | groupItem (flags : Flags) (pageItems : List PageItem)
  | layerItem (flags : Flags) (pageItems : List PageItem)
  | otherItem (flags : Flags)

/-- The typename discriminant the source dispatches on. -/
def typenameOf : PageItem → String
  | PageItem.pathItem _ _ _ => "PathItem"
  | PageItem.compoundPathItem _ _ _ => "CompoundPathItem"
  | PageItem.groupItem _ _ => "GroupItem"
  | PageItem.layerItem _ _ => "Layer"
  | PageItem.otherItem _ => "Other"

/-- Flags of a page item. -/
def flagsOf : PageItem → Flags
  | PageItem.pathItem fl _ _ => fl
  | PageItem.compoundPathItem fl _ _ => fl
  | PageItem.groupItem fl _ => fl
  | PageItem.layerItem fl _ => fl
  | PageItem.otherItem fl => fl

/-- The skip condition of the traversal and of the selection loop:
locked, hidden, guides or clipping. -/
def skipFlags (it : PageItem) : Bool :=
  (flagsOf it).locked || (flagsOf it).hidden || (flagsOf it).guides || (flagsOf it).clipping

/-- Container typenames the traversal recurses into. -/
def containerTypes : List String := ["GroupItem", "CompoundPathItem", "Layer"]

/-- Membership test over containerTypes, as the source's loop computes. -/
def isContainerType (typeName : String) : Bool :=
  containerTypes.contains typeName

/-- Push condition for a type-matched item in PathItem mode: its
pathPoints collection is nonempty (a JS array is always truthy, so the
source's guard reduces to the length test). -/
def hasPathPoints : PageItem → Bool
  | PageItem.pathItem _ _ sh => sh.pathPoints.length > 0
  | _ => false

/-- Push condition for a type-matched item in CompoundPathItem mode: its
pathItems collection is nonempty. -/
def hasSubPaths : PageItem → Bool
  | PageItem.compoundPathItem _ _ subs => subs.length > 0
  | _ => false

mutual

/-- Model of collectPaths on one container: iterate its pageItems if it
has any (only groups and layers do), else collect nothing. -/
def collectPaths (container : PageItem) (tn : String) : List PageItem :=
  match container with
  | PageItem.groupItem _ sub => collectList sub tn
  | PageItem.layerItem _ sub => collectList sub tn
  | _ => []

/-- The loop body of collectPaths over a pageItems list: skip flagged
children entirely, push type-matched children with nonempty geometry,
recurse into container-typed children. -/
def collectList (items : List PageItem) (tn : String) : List PageItem :=
  match items with
  | [] => []
  | it :: rest =>
      (if skipFlags it then []
       else if typenameOf it = tn then
         (if tn = "PathItem" ∧ hasPathPoints it then [it] else []) ++
           (if tn = "CompoundPathItem" ∧ hasSubPaths it then [it] else [])
       else if isContainerType (typenameOf it) then collectPaths it tn
       else []) ++ collectList rest tn

end

/-- Model of the selection loop of main: skip flagged selected items,
push directly selected PathItems as-is (with no geometry test), expand
selected containers through collectPaths. -/
def selectionPaths (sel : List PageItem) : List PageItem :=
  match sel with
  | [] => []
  | it :: rest =>
      (if skipFlags it then []
       else if typenameOf it = "PathItem" then [it]
       else if isContainerType (typenameOf it) then collectPaths it "PathItem"
       else []) ++ selectionPaths rest

/-- The document as main reads it: its layers and the current selection. -/
structure Document where
  layers : List PageItem
  selection : List PageItem

/-- Phase-1 collection of main: compound paths from every layer. -/
def collectCompounds (doc : Document) : List PageItem :=
  doc.layers.foldl (fun acc l => acc ++ collectPaths l "CompoundPathItem") []

/-- Phase-2 candidate set of main: the selection loop when the selection
is nonempty, otherwise the traversal over every layer. -/
def collectCandidatePaths (doc : Document) : List PageItem :=
  if doc.selection.length > 0 then selectionPaths doc.selection
  else doc.layers.foldl (fun acc l => acc ++ collectPaths l "PathItem") []

/-- Hash main computes for a collected compound item. -/
def itemHashC (precision : ℕ) : PageItem → String
  | PageItem.compoundPathItem _ _ subs => compoundPathToHash precision ⟨subs⟩
  | _ => ""

/-- Hash main computes for a collected path item. -/
def itemHashP (precision : ℕ) : PageItem → String
  | PageItem.pathItem _ _ sh => pathToHash precision sh
  | _ => ""

/-- One step of main's grouping loop on the insertion-ordered hash map:
append to the list under an existing key, or append a new key at the
end. -/
def addToGroups {α : Type} (gs : List (String × List α)) (h : String) (x : α) :
    List (String × List α) :=
  match gs with
  | [] => [(h, [x])]
  | g :: rest => if g.1 = h then (g.1, g.2 ++ [x]) :: rest else g :: addToGroups rest h x

/-- Model of main's grouping loop: hash each collected item in order,
skip falsy (empty) hashes, and push into the insertion-ordered map. -/
def buildGroups {α : Type} (hash : α → String) (xs : List α) : List (String × List α) :=
  xs.foldl (fun gs x => if hash x = "" then gs else addToGroups gs (hash x) x) []

/-- Model of main's removal loop over one group: attempt deletion of
every member after the first; a successful deletion (ok) increments the
count and is recorded, a failing one is caught and leaves both alone. -/
def removeFromGroup {α : Type} (ok : α → Bool) (st : ℕ × List α) (dups : List α) :
    ℕ × List α :=
  (dups.drop 1).foldl (fun st x => if ok x then (st.1 + 1, st.2 ++ [x]) else st) st

/-- Model of main's removal loop over all groups: the removed count and
the removed members in order. -/
def removeDups {α : Type} (ok : α → Bool) (gs : List (String × List α)) : ℕ × List α :=
  gs.foldl (fun st g => removeFromGroup ok st g.2) (0, [])

/-- Members of all groups, in map order. -/
def groupMembers {α : Type} (gs : List (String × List α)) : List α :=
  (gs.map Prod.snd).flatten

/-- The members main's removal loop successfully removes, in order. -/
def removalList {α : Type} (ok : α → Bool) (gs : List (String × List α)) : List α :=
  (gs.map (fun g => (g.2.drop 1).filter ok)).flatten

/-- Outcome main surfaces to the user (the no-document case is decided
before the engine reads anything and is not modelled). -/
inductive Outcome where
  | nothingEligible
  | report (removedCount compoundRemovedCount : ℕ)
deriving DecidableEq

/-- Observable result of a run: the surfaced outcome and the items whose
deletion succeeded, per phase. -/
structure RunResult where
  outcome : Outcome
  removedCompounds : List PageItem
  removedPaths : List PageItem

/-- Model of main past the document check: phase 1 collects and dedups
compound paths, then the phase-2 candidate set is determined, the
nothing-eligible test compares both collection sizes, and phase 2 dedups
the candidate paths. The document snapshot is not mutated between the
phases here; the theorems below about this model concern runs in which
phase 1 removes nothing, where the snapshot is exact. -/
def mainRun (precision : ℕ) (ok : PageItem → Bool) (doc : Document) : RunResult :=
  let compoundPaths := collectCompounds doc
  let cres := removeDups ok (buildGroups (itemHashC precision) compoundPaths)
  let paths := collectCandidatePaths doc
  if paths.length = 0 ∧ compoundPaths.length = 0 then
    { outcome := Outcome.nothingEligible, removedCompounds := cres.2, removedPaths := [] }
  else
    let pres := removeDups ok (buildGroups (itemHashP precision) paths)
    { outcome := Outcome.report pres.1 cres.1,
      removedCompounds := cres.2, removedPaths := pres.2 }

/-- Concrete control point with assorted coordinates, for witnesses. -/
def ptHalf : PathPoint :=
  ⟨⟨mkRat 1 2, mkRat 3 2⟩, ⟨mkRat (-1) 4, mkRat 0 1⟩, ⟨mkRat 5 1, mkRat 2 1⟩,
    "PointType.SMOOTH"⟩

/-- Closed one-point shape, for witnesses. -/
def shapeClosedEx : SimpleShape := ⟨[ptHalf], true⟩

/-- Open copy of shapeClosedEx, for witnesses. -/
def shapeOpenEx : SimpleShape := ⟨[ptHalf], false⟩

/-- Control point at the origin, for witnesses. -/
def ptZero : PathPoint :=
  ⟨⟨mkRat 0 1, mkRat 0 1⟩, ⟨mkRat 0 1, mkRat 0 1⟩, ⟨mkRat 0 1, mkRat 0 1⟩,
    "PointType.CORNER"⟩

/-- Control point at coordinate one, for witnesses. -/
def ptOne : PathPoint :=
  ⟨⟨mkRat 1 1, mkRat 1 1⟩, ⟨mkRat 1 1, mkRat 1 1⟩, ⟨mkRat 1 1, mkRat 1 1⟩,
    "PointType.CORNER"⟩

/-- Two-point shape with points in one order. -/
def shapeOrderAB : SimpleShape := ⟨[ptZero, ptOne], true⟩

/-- The same two points in the other order. -/
def shapeOrderBA : SimpleShape := ⟨[ptOne, ptZero], true⟩

/-- Coordinate just below 0.15: rounds to 0.15 at two digits but to 0.1
at one digit. -/
def coordNearA : ℚ := mkRat 14999 100000

/-- Coordinate just above 0.15: rounds to 0.15 at two digits but to 0.2
at one digit. -/
def coordNearB : ℚ := mkRat 15001 100000

/-- One-point shape with every coordinate equal to coordNearA. -/
def shapeNearA : SimpleShape :=
  ⟨[⟨⟨coordNearA, coordNearA⟩, ⟨coordNearA, coordNearA⟩, ⟨coordNearA, coordNearA⟩,
      "PointType.CORNER"⟩], true⟩

/-- One-point shape with every coordinate equal to coordNearB. -/
def shapeNearB : SimpleShape :=
  ⟨[⟨⟨coordNearB, coordNearB⟩, ⟨coordNearB, coordNearB⟩, ⟨coordNearB, coordNearB⟩,
      "PointType.CORNER"⟩], true⟩

/-- One-point shape whose coordinates (0.14) round at one digit exactly
as those of shapeNearA do. -/
def shapeTenth : SimpleShape :=
  ⟨[⟨⟨mkRat 14 100, mkRat 14 100⟩, ⟨mkRat 14 100, mkRat 14 100⟩,
      ⟨mkRat 14 100, mkRat 14 100⟩, "PointType.CORNER"⟩], true⟩

/-- Flags with only locked set. -/
def lockedFlags : Flags :=
  { locked := true, hidden := false, guides := false, clipping := false }

/-- A locked path item, for witnesses and counterexamples. -/
def lockedPathEx : PageItem := PageItem.pathItem lockedFlags 7 shapeClosedEx

/-- A document whose only shape is locked, with nothing selected. -/
def docLockedOnly : Document := ⟨[PageItem.layerItem noFlags [lockedPathEx]], []⟩

/-- An eligible path item with empty geometry, for the selection-mode
asymmetry witness. -/
def emptyGeomPathEx : PageItem := PageItem.pathItem noFlags 3 ⟨[], true⟩

/-- A compound shape made of two sub-paths with no control points. -/
def compoundTwoEmptyA : CompoundShape := ⟨[⟨[], true⟩, ⟨[], true⟩]⟩

/-- Another compound of two no-geometry sub-paths, differing from
compoundTwoEmptyA in the sub-path closed flags. -/
def compoundTwoEmptyB : CompoundShape := ⟨[⟨[], false⟩, ⟨[], true⟩]⟩

/-- Compound with two distinct sub-paths in one order. -/
def compoundPermA : CompoundShape := ⟨[shapeOrderAB, shapeClosedEx]⟩

/-- The same two sub-paths in the other order. -/
def compoundPermB : CompoundShape := ⟨[shapeClosedEx, shapeOrderAB]⟩

theorem charsLe_total : ∀ x y : List Char, charsLe x y = true ∨ charsLe y x = true := by
  intro x
  induction x with
  | nil => intro y; left; rfl
  | cons a as ih =>
    intro y
    cases y with
    | nil => right; rfl
    | cons b bs =>
      by_cases hab : a = b
      · subst hab
        rcases ih bs with h | h
        · left; simpa [charsLe] using h
        · right; simpa [charsLe] using h
      · rcases lt_or_gt_of_ne hab with h | h
        · left; simp [charsLe, hab, h]
        · right; simp [charsLe, Ne.symm hab, h]

theorem charsLe_trans :
    ∀ x y z : List Char, charsLe x y = true → charsLe y z = true → charsLe x z = true := by
  intro x
  induction x with
  | nil => intro y z _ _; rfl
  | cons a as ih =>
    intro y z hxy hyz
    cases y with
    | nil => simp [charsLe] at hxy
    | cons b bs =>
      cases z with
      | nil => simp [charsLe] at hyz
      | cons c cs =>
        by_cases hab : a = b
        · subst hab
          by_cases hac : a = c
          · subst hac
            simp only [charsLe, if_pos rfl] at hxy hyz ⊢
            exact ih bs cs hxy hyz
          · simp [charsLe, hac] at hyz ⊢
            exact hyz
        · by_cases hbc : b = c
          · subst hbc
            simp [charsLe, hab] at hxy ⊢
            exact hxy
          · simp [charsLe, hab] at hxy
            simp [charsLe, hbc] at hyz
            have hac : a < c := lt_trans hxy hyz
            simp [charsLe, ne_of_lt hac, hac]

theorem charsLe_antisymm :
    ∀ x y : List Char, charsLe x y = true → charsLe y x = true → x = y := by
  intro x
  induction x with
  | nil =>
    intro y _ hyx
    cases y with
    | nil => rfl
    | cons b bs => simp [charsLe] at hyx
  | cons a as ih =>
    intro y hxy hyx
    cases y with
    | nil => simp [charsLe] at hxy
    | cons b bs =>
      by_cases hab : a = b
      · subst hab
        simp only [charsLe, if_pos rfl] at hxy hyx
        rw [ih bs hxy hyx]
      · simp [charsLe, hab] at hxy
        simp [charsLe, Ne.symm hab] at hyx
        exact absurd hyx (lt_asymm hxy)

theorem sortStrings_eq_of_perm {l₁ l₂ : List String} (h : l₁.Perm l₂) :
    List.insertionSort strLeProp l₁ = List.insertionSort strLeProp l₂ := by
  haveI : IsTotal String strLeProp := ⟨fun a b => charsLe_total a.data b.data⟩
  haveI : IsTrans String strLeProp := ⟨fun a b c => charsLe_trans a.data b.data c.data⟩
  haveI : IsAntisymm String strLeProp := by
    refine ⟨fun a b h1 h2 => ?_⟩
    cases a
    cases b
    exact congrArg String.mk (charsLe_antisymm _ _ h1 h2)
  exact List.eq_of_perm_of_sorted
    (((List.perm_insertionSort _ _).trans h).trans (List.perm_insertionSort _ _).symm)
    (List.sorted_insertionSort _ _) (List.sorted_insertionSort _ _)

theorem joinSep_replicate_empty_length :
    ∀ k : ℕ, (joinSep "|" (List.replicate (k + 1) "")).length = k := by
  intro k
  induction k with
  | zero => rfl
  | succ n ih =>
    have hrep : List.replicate (n + 1 + 1) ("" : String) = "" :: List.replicate (n + 1) "" :=
      List.replicate_succ "" (n + 1)
    have hrep2 : List.replicate (n + 1) ("" : String) = "" :: List.replicate n "" :=
      List.replicate_succ "" n
    rw [hrep, hrep2]
    rw [hrep2] at ih
    show (("" : String) ++ "|" ++ joinSep "|" ("" :: List.replicate n "")).length = n + 1
    rw [String.length_append, String.length_append, ih]
    have h0 : ("" : String).length = 0 := rfl
    have h1 : ("|" : String).length = 1 := rfl
    omega

theorem pathToHash_empty (p : ℕ) (s : SimpleShape) (h : s.pathPoints = []) :
    pathToHash p s = "" := by
  simp [pathToHash, h]

theorem pathToHash_ne_empty (p : ℕ) (s : SimpleShape) (h : s.pathPoints ≠ []) :
    pathToHash p s ≠ "" := by
  have hlen : ¬ s.pathPoints.length = 0 := by
    simpa [List.length_eq_zero] using h
  intro hc
  rw [pathToHash, if_neg hlen] at hc
  have hlc := congrArg String.length hc
  rw [String.length_append, String.length_append] at hlc
  have h1 : ("|" : String).length = 1 := rfl
  have h2 : ("closed" : String).length = 6 := rfl
  have h3 : ("open" : String).length = 4 := rfl
  have h0 : ("" : String).length = 0 := rfl
  cases hcl : s.closed <;> rw [hcl] at hlc <;> simp at hlc <;> omega

theorem foldl_remove_eq {α : Type} (ok : α → Bool) :
    ∀ (l : List α) (c : ℕ) (ids : List α),
      l.foldl (fun st x => if ok x then (st.1 + 1, st.2 ++ [x]) else st) (c, ids)
        = (c + (l.filter ok).length, ids ++ l.filter ok) := by
  intro l
  induction l with
  | nil => intro c ids; simp
  | cons a as ih =>
    intro c ids
    rw [List.foldl_cons]
    cases hok : ok a
    · simp only [hok, Bool.false_eq_true, if_false]
      rw [ih c ids, List.filter_cons, hok]
      simp
    · simp only [hok, if_true]
      rw [ih (c + 1) (ids ++ [a]), List.filter_cons, hok]
      simp only [if_true, List.length_cons, List.append_assoc, List.singleton_append,
        Prod.mk.injEq]
      exact ⟨by omega, trivial⟩

theorem removeFromGroup_eq {α : Type} (ok : α → Bool) (st : ℕ × List α) (dups : List α) :
    removeFromGroup ok st dups
      = (st.1 + ((dups.drop 1).filter ok).length, st.2 ++ (dups.drop 1).filter ok) := by
  cases st
  exact foldl_remove_eq ok _ _ _

theorem removeDups_eq {α : Type} (ok : α → Bool) (gs : List (String × List α)) :
    removeDups ok gs = ((removalList ok gs).length, removalList ok gs) := by
  suffices h : ∀ (gs : List (String × List α)) (c : ℕ) (ids : List α),
      gs.foldl (fun st g => removeFromGroup ok st g.2) (c, ids)
        = (c + (removalList ok gs).length, ids ++ removalList ok gs) by
    simpa [removeDups] using h gs 0 []
  intro gs
  induction gs with
  | nil => intro c ids; simp [removalList]
  | cons g rest ih =>
    intro c ids
    rw [List.foldl_cons, removeFromGroup_eq, ih]
    simp only [removalList, List.map_cons, List.flatten_cons, List.length_append,
      List.append_assoc, Prod.mk.injEq]
    exact ⟨by omega, trivial⟩

theorem groupMembers_nil {α : Type} : groupMembers ([] : List (String × List α)) = [] := rfl

theorem groupMembers_cons {α : Type} (g : String × List α) (rest : List (String × List α)) :
    groupMembers (g :: rest) = g.2 ++ groupMembers rest := by
  simp [groupMembers]

theorem groupMembers_addToGroups {α : Type} (h : String) (y x : α) :
    ∀ gs : List (String × List α),
      x ∈ groupMembers (addToGroups gs h y) → x ∈ groupMembers gs ∨ x = y := by
  intro gs
  induction gs with
  | nil =>
    intro hx
    simp [addToGroups, groupMembers] at hx
    exact Or.inr hx
  | cons g rest ih =>
    by_cases hg : g.1 = h
    · intro hx
      rw [addToGroups] at hx
      rw [if_pos hg] at hx
      rw [groupMembers_cons] at hx
      rw [groupMembers_cons]
      rcases List.mem_append.mp hx with hx | hx
      · rcases List.mem_append.mp hx with hx | hx
        · exact Or.inl (List.mem_append.mpr (Or.inl hx))
        · exact Or.inr (List.mem_singleton.mp hx)
      · exact Or.inl (List.mem_append.mpr (Or.inr hx))
    · intro hx
      rw [addToGroups] at hx
      rw [if_neg hg] at hx
      rw [groupMembers_cons] at hx
      rw [groupMembers_cons]
      rcases List.mem_append.mp hx with hx | hx
      · exact Or.inl (List.mem_append.mpr (Or.inl hx))
      · rcases ih hx with hx | hx
        · exact Or.inl (List.mem_append.mpr (Or.inr hx))
        · exact Or.inr hx

theorem groupMembers_buildGroups_hash_ne {α : Type} (hash : α → String) (xs : List α)
    (x : α) : x ∈ groupMembers (buildGroups hash xs) → hash x ≠ "" := by
  suffices h : ∀ gs : List (String × List α),
      (∀ y ∈ groupMembers gs, hash y ≠ "") →
      ∀ y ∈ groupMembers
        (xs.foldl (fun gs x => if hash x = "" then gs else addToGroups gs (hash x) x) gs),
        hash y ≠ "" by
    intro hx
    exact h [] (by simp [groupMembers]) x hx
  induction xs with
  | nil => intro gs hgs y hy; exact hgs y hy
  | cons a as ih =>
    intro gs hgs y hy
    rw [List.foldl_cons] at hy
    by_cases ha : hash a = ""
    · rw [if_pos ha] at hy
      exact ih gs hgs y hy
    · rw [if_neg ha] at hy
      refine ih _ ?_ y hy
      intro z hz
      rcases groupMembers_addToGroups (hash a) a z gs hz with hz | rfl
      · exact hgs z hz
      · exact ha

theorem removalList_subset {α : Type} (ok : α → Bool) (x : α) :
    ∀ gs : List (String × List α), x ∈ removalList ok gs → x ∈ groupMembers gs := by
  intro gs
  induction gs with
  | nil => intro hx; simp [removalList] at hx
  | cons g rest ih =>
    intro hx
    simp only [removalList, List.map_cons, List.flatten_cons, List.mem_append] at hx
    rw [groupMembers_cons]
    rcases hx with hx | hx
    · have hd : x ∈ g.2.drop 1 := List.mem_of_mem_filter hx
      exact List.mem_append.mpr (Or.inl (List.mem_of_mem_drop hd))
    · exact List.mem_append.mpr (Or.inr (ih hx))

theorem buildGroups_pair {α : Type} (hash : α → String) (a b : α) (h : String)
    (ha : hash a = h) (hb : hash b = h) (hne : h ≠ "") :
    buildGroups hash [a, b] = [(h, [a, b])] := by
  simp only [buildGroups, List.foldl_cons, List.foldl_nil, ha, hb, if_neg hne]
  simp [addToGroups]

theorem buildGroups_triple {α : Type} (hash : α → String) (a b c : α) (h : String)
    (ha : hash a = h) (hb : hash b = h) (hc : hash c = h) (hne : h ≠ "") :
    buildGroups hash [a, b, c] = [(h, [a, b, c])] := by
  simp only [buildGroups, List.foldl_cons, List.foldl_nil, ha, hb, hc, if_neg hne]
  simp [addToGroups]

theorem collectList_nil (tn : String) : collectList [] tn = [] := by
  rw [collectList]

theorem collectList_cons (it : PageItem) (rest : List PageItem) (tn : String) :
    collectList (it :: rest) tn =
      (if skipFlags it then []
       else if typenameOf it = tn then
         (if tn = "PathItem" ∧ hasPathPoints it then [it] else []) ++
           (if tn = "CompoundPathItem" ∧ hasSubPaths it then [it] else [])
       else if isContainerType (typenameOf it) then collectPaths it tn
       else []) ++ collectList rest tn := by
  rw [collectList]

theorem collectList_append (tn : String) (xs ys : List PageItem) :
    collectList (xs ++ ys) tn = collectList xs tn ++ collectList ys tn := by
  induction xs with
  | nil => rw [List.nil_append, collectList_nil, List.nil_append]
  | cons it rest ih =>
    rw [List.cons_append, collectList_cons, collectList_cons, ih, List.append_assoc]

theorem collectList_flagged_cons (it : PageItem) (rest : List PageItem) (tn : String)
    (hf : skipFlags it = true) :
    collectList (it :: rest) tn = collectList rest tn := by
  rw [collectList_cons, hf]
  simp

theorem selectionPaths_nil : selectionPaths [] = [] := by
  rw [selectionPaths]

theorem selectionPaths_cons (it : PageItem) (rest : List PageItem) :
    selectionPaths (it :: rest) =
      (if skipFlags it then []
       else if typenameOf it = "PathItem" then [it]
       else if isContainerType (typenameOf it) then collectPaths it "PathItem"
       else []) ++ selectionPaths rest := by
  rw [selectionPaths]

theorem closed_marker_ne (a : String) : a ++ "|" ++ "closed" ≠ a ++ "|" ++ "open" := by
  intro h
  have hl := congrArg String.length h
  rw [String.length_append, String.length_append, String.length_append,
    String.length_append] at hl
  have h2 : ("closed" : String).length = 6 := rfl
  have h3 : ("open" : String).length = 4 := rfl
  omega

/-- C1: for every shape with at least one control point and every
precision, the fingerprint is exactly the per-point tokens of the seven
fields (the six coordinates rendered at the precision plus the raw kind
tag) joined by commas, the tokens joined by semicolons in original order,
followed, behind the distinct bar delimiter, by the closed/open marker;
and an otherwise identical shape with the opposite closed flag never has
an equal fingerprint. -/
theorem pathToHash_fields_and_closed_marker (p : ℕ) (s t : SimpleShape)
    (hs : s.pathPoints ≠ []) (ht : t.pathPoints = s.pathPoints)
    (hc : t.closed ≠ s.closed) :
    pathToHash p s =
      joinSep ";" (s.pathPoints.map (fun pt =>
        joinSep "," [toFixed p pt.anchor.x, toFixed p pt.anchor.y,
          toFixed p pt.leftDirection.x, toFixed p pt.leftDirection.y,
          toFixed p pt.rightDirection.x, toFixed p pt.rightDirection.y,
          pt.pointType])) ++ "|" ++ (if s.closed then "closed" else "open")
    ∧ pathToHash p t ≠ pathToHash p s := by
  have hslen : ¬ s.pathPoints.length = 0 := by simpa [List.length_eq_zero] using hs
  have htlen : ¬ t.pathPoints.length = 0 := by rw [ht]; exact hslen
  refine ⟨by rw [pathToHash, if_neg hslen]; rfl, ?_⟩
  rw [pathToHash, pathToHash, if_neg htlen, if_neg hslen, ht]
  cases hcs : s.closed <;> cases hct : t.closed
  · exact absurd (hct.trans hcs.symm) hc
  · rw [if_pos rfl, if_neg Bool.false_ne_true]
    exact closed_marker_ne _
  · rw [if_neg Bool.false_ne_true, if_pos rfl]
    exact Ne.symm (closed_marker_ne _)
  · exact absurd (hct.trans hcs.symm) hc

/-- Witness for C1 at the concrete closed and open one-point shapes. -/
theorem pathToHash_fields_and_closed_marker_witness :
    pathToHash 1 shapeClosedEx =
      joinSep ";" (shapeClosedEx.pathPoints.map (fun pt =>
        joinSep "," [toFixed 1 pt.anchor.x, toFixed 1 pt.anchor.y,
          toFixed 1 pt.leftDirection.x, toFixed 1 pt.leftDirection.y,
          toFixed 1 pt.rightDirection.x, toFixed 1 pt.rightDirection.y,
          pt.pointType])) ++ "|" ++ (if shapeClosedEx.closed then "closed" else "open")
    ∧ pathToHash 1 shapeOpenEx ≠ pathToHash 1 shapeClosedEx :=
  pathToHash_fields_and_closed_marker 1 shapeClosedEx shapeOpenEx
    (by decide) rfl (by decide)

/-- C2: the compound fingerprint is invariant under any permutation of a
nonempty sub-shape sequence, while the simple-shape fingerprint does
distinguish the two orders of the concrete two-point shape, so point
order stays significant for simple shapes. -/
theorem compoundPathToHash_perm_invariant (p : ℕ) (c₁ c₂ : CompoundShape)
    (hne : c₁.pathItems ≠ []) (hperm : c₁.pathItems.Perm c₂.pathItems) :
    compoundPathToHash p c₁ = compoundPathToHash p c₂
    ∧ pathToHash 1 shapeOrderAB ≠ pathToHash 1 shapeOrderBA := by
  constructor
  · have hl : c₁.pathItems.length = c₂.pathItems.length := hperm.length_eq
    have h1 : ¬ c₁.pathItems.length = 0 := by simpa [List.length_eq_zero] using hne
    have h2 : ¬ c₂.pathItems.length = 0 := by rw [← hl]; exact h1
    rw [compoundPathToHash, compoundPathToHash, if_neg h1, if_neg h2,
      sortStrings_eq_of_perm (hperm.map (pathToHash p))]
  · decide

/-- Witness for C2 at the concrete two-element compounds. -/
theorem compoundPathToHash_perm_invariant_witness :
    compoundPathToHash 1 compoundPermA = compoundPathToHash 1 compoundPermB
    ∧ pathToHash 1 shapeOrderAB ≠ pathToHash 1 shapeOrderBA :=
  compoundPathToHash_perm_invariant 1 compoundPermA compoundPermB (by decide)
    (by show ([shapeOrderAB, shapeClosedEx] : List SimpleShape).Perm [shapeClosedEx, shapeOrderAB]
        exact List.Perm.swap shapeClosedEx shapeOrderAB [])

/-- C3: main's removal loop keeps the first member of every group and
attempts deletion of exactly the members after it (the removals are the
ok-filtered tail, in order); in particular three identical shapes grouped
in collection order leave the first alone and remove the second and
third. -/
theorem dedup_first_seen_retention {α : Type} (ok : α → Bool) (h : String) (m : α)
    (rest : List α) (p : ℕ) (idA idB idC : ℕ) (s : SimpleShape)
    (hh : pathToHash p s ≠ "") (hAB : idA ≠ idB) (hAC : idA ≠ idC) :
    removeDups ok [(h, m :: rest)] = ((rest.filter ok).length, rest.filter ok)
    ∧ removeDups (fun _ => true)
        (buildGroups (fun x : ℕ × SimpleShape => pathToHash p x.2)
          [(idA, s), (idB, s), (idC, s)])
      = (2, [(idB, s), (idC, s)])
    ∧ (idA, s) ∉ (removeDups (fun _ => true)
        (buildGroups (fun x : ℕ × SimpleShape => pathToHash p x.2)
          [(idA, s), (idB, s), (idC, s)])).2 := by
  have hb := buildGroups_triple (fun x : ℕ × SimpleShape => pathToHash p x.2)
    (idA, s) (idB, s) (idC, s) (pathToHash p s) rfl rfl rfl hh
  refine ⟨?_, ?_, ?_⟩
  · rw [removeDups_eq]
    simp [removalList]
  · rw [hb, removeDups_eq]
    simp [removalList]
  · rw [hb, removeDups_eq]
    simp [removalList, hAB, hAC]

/-- Witness for C3 at concrete groups and identifiers. -/
theorem dedup_first_seen_retention_witness :
    removeDups (fun n : ℕ => decide (n % 2 = 0)) [("k", 5 :: [1, 2])]
      = (([1, 2].filter (fun n : ℕ => decide (n % 2 = 0))).length,
         [1, 2].filter (fun n : ℕ => decide (n % 2 = 0)))
    ∧ removeDups (fun _ => true)
        (buildGroups (fun x : ℕ × SimpleShape => pathToHash 1 x.2)
          [(0, shapeClosedEx), (1, shapeClosedEx), (2, shapeClosedEx)])
      = (2, [(1, shapeClosedEx), (2, shapeClosedEx)])
    ∧ (0, shapeClosedEx) ∉ (removeDups (fun _ => true)
        (buildGroups (fun x : ℕ × SimpleShape => pathToHash 1 x.2)
          [(0, shapeClosedEx), (1, shapeClosedEx), (2, shapeClosedEx)])).2 :=
  dedup_first_seen_retention (fun n : ℕ => decide (n % 2 = 0)) "k" 5 [1, 2] 1 0 1 2
    shapeClosedEx (by decide) (by decide) (by decide)

/-- C4 counterexample: the two concrete one-point shapes have equal
fingerprints at precision 2 yet different fingerprints at precision 1
(double rounding: 0.14999 and 0.15001 both render as 0.15 at two digits
but as 0.1 and 0.2 at one digit), refuting that fingerprint equality at
precision p + 1 implies equality at precision p. -/
theorem precision_monotonicity_counterexample :
    pathToHash 2 shapeNearA = pathToHash 2 shapeNearB
    ∧ pathToHash 1 shapeNearA ≠ pathToHash 1 shapeNearB := by
  constructor
  · decide
  · decide

/-- C4 amended: cross-precision implication fails, but per-precision
agreement is exactly what fingerprint equality tracks: if the closed
flags agree and the point lists agree entry-wise after rendering all six
coordinates with toFixed at precision p (with equal raw kind tags), then
the fingerprints at precision p are equal. -/
theorem pathToHash_congr_of_toFixed_eq (p : ℕ) (s₁ s₂ : SimpleShape)
    (hc : s₁.closed = s₂.closed)
    (hpts : List.Forall₂ (fun a b : PathPoint =>
        toFixed p a.anchor.x = toFixed p b.anchor.x ∧
        toFixed p a.anchor.y = toFixed p b.anchor.y ∧
        toFixed p a.leftDirection.x = toFixed p b.leftDirection.x ∧
        toFixed p a.leftDirection.y = toFixed p b.leftDirection.y ∧
        toFixed p a.rightDirection.x = toFixed p b.rightDirection.x ∧
        toFixed p a.rightDirection.y = toFixed p b.rightDirection.y ∧
        a.pointType = b.pointType) s₁.pathPoints s₂.pathPoints) :
    pathToHash p s₁ = pathToHash p s₂ := by
  have hlen : s₁.pathPoints.length = s₂.pathPoints.length := hpts.length_eq
  have hmapgen : ∀ l₁ l₂ : List PathPoint,
      List.Forall₂ (fun a b : PathPoint =>
        toFixed p a.anchor.x = toFixed p b.anchor.x ∧
        toFixed p a.anchor.y = toFixed p b.anchor.y ∧
        toFixed p a.leftDirection.x = toFixed p b.leftDirection.x ∧
        toFixed p a.leftDirection.y = toFixed p b.leftDirection.y ∧
        toFixed p a.rightDirection.x = toFixed p b.rightDirection.x ∧
        toFixed p a.rightDirection.y = toFixed p b.rightDirection.y ∧
        a.pointType = b.pointType) l₁ l₂ →
      l₁.map (pointHash p) = l₂.map (pointHash p) := by
    intro l₁ l₂ hf
    induction hf with
    | nil => rfl
    | cons hab _ ih =>
      obtain ⟨h1, h2, h3, h4, h5, h6, h7⟩ := hab
      simp only [List.map_cons, ih, List.cons.injEq, and_true]
      simp [pointHash, h1, h2, h3, h4, h5, h6, h7]
  have hmap := hmapgen _ _ hpts
  by_cases h0 : s₁.pathPoints.length = 0
  · have h0b : s₂.pathPoints.length = 0 := by rw [← hlen]; exact h0
    rw [pathToHash, pathToHash, if_pos h0, if_pos h0b]
  · have h0b : ¬ s₂.pathPoints.length = 0 := by rw [← hlen]; exact h0
    rw [pathToHash, pathToHash, if_neg h0, if_neg h0b, hmap, hc]

/-- Witness for the amended C4: 0.14999 and 0.14 render equally at one
digit, so the two concrete shapes share the precision-1 fingerprint. -/
theorem pathToHash_congr_of_toFixed_eq_witness :
    pathToHash 1 shapeNearA = pathToHash 1 shapeTenth :=
  pathToHash_congr_of_toFixed_eq 1 shapeNearA shapeTenth rfl
    (by refine List.Forall₂.cons ?_ List.Forall₂.nil
        refine ⟨?_, ?_, ?_, ?_, ?_, ?_, ?_⟩ <;> decide)

/-- C5: empty geometry (no control points, or no sub-shapes) yields the
empty sentinel key, a sentinel-keyed item never enters any group, and is
never among the removed items, so no-geometry shapes are neither grouped
together nor deleted. -/
theorem empty_geometry_sentinel (p : ℕ) (s : SimpleShape) (c : CompoundShape)
    (α : Type) (hash : α → String) (ok : α → Bool) (xs : List α) (x : α)
    (hs : s.pathPoints = []) (hc : c.pathItems = []) (hx : hash x = "") :
    pathToHash p s = "" ∧ compoundPathToHash p c = ""
    ∧ x ∉ groupMembers (buildGroups hash xs)
    ∧ x ∉ (removeDups ok (buildGroups hash xs)).2 := by
  refine ⟨pathToHash_empty p s hs, ?_, ?_, ?_⟩
  · simp [compoundPathToHash, hc]
  · intro hmem
    exact groupMembers_buildGroups_hash_ne hash xs x hmem hx
  · intro hmem
    rw [removeDups_eq] at hmem
    exact groupMembers_buildGroups_hash_ne hash xs x
      (removalList_subset ok x _ (by simpa using hmem)) hx

/-- Witness for C5 at concrete empty shapes and a constantly empty hash. -/
theorem empty_geometry_sentinel_witness :
    pathToHash 1 ⟨[], true⟩ = "" ∧ compoundPathToHash 1 ⟨[]⟩ = ""
    ∧ 4 ∉ groupMembers (buildGroups (fun _ : ℕ => "") [4])
    ∧ 4 ∉ (removeDups (fun _ : ℕ => true) (buildGroups (fun _ : ℕ => "") [4])).2 :=
  empty_geometry_sentinel 1 ⟨[], true⟩ ⟨[]⟩ ℕ (fun _ => "") (fun _ => true) [4] 4
    rfl rfl rfl

/-- C6: when deletion fails on the second of three grouped duplicates,
the failure is contained: the third member is still attempted, succeeds
and is counted, and the count reflects only the successful deletion. -/
theorem deletion_failure_tolerance (p : ℕ) (idA idB idC : ℕ) (s : SimpleShape)
    (hh : pathToHash p s ≠ "") (hCB : idC ≠ idB) :
    removeDups (fun x : ℕ × SimpleShape => decide (x.1 ≠ idB))
        (buildGroups (fun x : ℕ × SimpleShape => pathToHash p x.2)
          [(idA, s), (idB, s), (idC, s)])
      = (1, [(idC, s)]) := by
  rw [buildGroups_triple (fun x : ℕ × SimpleShape => pathToHash p x.2)
    (idA, s) (idB, s) (idC, s) (pathToHash p s) rfl rfl rfl hh, removeDups_eq]
  simp [removalList, hCB]

/-- Witness for C6 at concrete identifiers. -/
theorem deletion_failure_tolerance_witness :
    removeDups (fun x : ℕ × SimpleShape => decide (x.1 ≠ 1))
        (buildGroups (fun x : ℕ × SimpleShape => pathToHash 1 x.2)
          [(0, shapeClosedEx), (1, shapeClosedEx), (2, shapeClosedEx)])
      = (1, [(2, shapeClosedEx)]) :=
  deletion_failure_tolerance 1 0 1 2 shapeClosedEx (by decide) (by decide)

/-- C7: a child with any eligibility flag set is skipped entirely by the
traversal: on its own it contributes nothing (it is neither pushed nor
descended into, container or not), and within any children list the
collected output is exactly as if the flagged child were absent. -/
theorem traversal_skips_flagged (tn : String) (pre post : List PageItem)
    (it : PageItem) (hf : skipFlags it = true) :
    collectList [it] tn = []
    ∧ collectList (pre ++ it :: post) tn = collectList (pre ++ post) tn := by
  refine ⟨?_, ?_⟩
  · rw [collectList_flagged_cons it [] tn hf, collectList_nil]
  · rw [collectList_append, collectList_append, collectList_flagged_cons it post tn hf]

/-- Witness for C7: a locked group with an eligible path inside is
skipped whole. -/
theorem traversal_skips_flagged_witness :
    collectList [PageItem.groupItem lockedFlags [PageItem.pathItem noFlags 9 shapeClosedEx]]
        "PathItem" = []
    ∧ collectList ([] ++ PageItem.groupItem lockedFlags
          [PageItem.pathItem noFlags 9 shapeClosedEx] :: []) "PathItem"
      = collectList ([] ++ []) "PathItem" :=
  traversal_skips_flagged "PathItem" [] []
    (PageItem.groupItem lockedFlags [PageItem.pathItem noFlags 9 shapeClosedEx]) rfl

/-- C8: a run in which the traversal collects no compound paths and the
candidate set is empty surfaces the nothing-eligible message with no
deletion performed in either phase. -/
theorem nothing_eligible_no_deletions (p : ℕ) (ok : PageItem → Bool) (doc : Document)
    (hC : collectCompounds doc = []) (hP : collectCandidatePaths doc = []) :
    mainRun p ok doc =
      { outcome := Outcome.nothingEligible, removedCompounds := [], removedPaths := [] } := by
  rw [mainRun, hC, hP]
  simp [buildGroups, removeDups]

/-- Witness for C8: a document whose only shape is locked, with nothing
selected. -/
theorem nothing_eligible_no_deletions_witness :
    mainRun 1 (fun _ => true) docLockedOnly =
      { outcome := Outcome.nothingEligible, removedCompounds := [], removedPaths := [] } := by
  have hone : ∀ tn, collectList [lockedPathEx] tn = [] := by
    intro tn
    rw [collectList_flagged_cons lockedPathEx [] tn rfl, collectList_nil]
  have hC : collectCompounds docLockedOnly = [] := by
    simp [collectCompounds, docLockedOnly, collectPaths, hone]
  have hP : collectCandidatePaths docLockedOnly = [] := by
    simp [collectCandidatePaths, docLockedOnly, collectPaths, hone]
  exact nothing_eligible_no_deletions 1 (fun _ => true) docLockedOnly hC hP

/-- C9 counterexample: a locked, directly selected path item is dropped
by the selection loop, so the eligibility-flags check is applied to
top-level selected simple shapes, contrary to the claim that they enter
the candidate set without it. -/
theorem selection_flags_check_counterexample :
    typenameOf lockedPathEx = "PathItem" ∧ selectionPaths [lockedPathEx] = [] := by
  refine ⟨rfl, ?_⟩
  rw [selectionPaths_cons, selectionPaths_nil]
  simp [skipFlags, lockedPathEx, lockedFlags, flagsOf]

/-- C9 amended: the selection loop applies the same eligibility-flags
check as the traversal to every top-level selected item; the real
asymmetry is the geometry test: a surviving directly selected path item
is pushed as-is with no nonempty-geometry check, so an eligible selected
path with no control points enters the candidate set even though the
traversal would never append it. -/
theorem selection_takes_paths_as_is (fl : Flags) (i : ℕ) (sh : SimpleShape)
    (rest : List PageItem) (hok : skipFlags (PageItem.pathItem fl i sh) = false)
    (hempty : sh.pathPoints = []) :
    selectionPaths (PageItem.pathItem fl i sh :: rest)
      = PageItem.pathItem fl i sh :: selectionPaths rest
    ∧ collectList [PageItem.pathItem fl i sh] "PathItem" = [] := by
  constructor
  · rw [selectionPaths_cons, hok]
    simp [typenameOf]
  · rw [collectList_cons, collectList_nil, hok]
    simp [typenameOf, hasPathPoints, hempty]

/-- Witness for the amended C9 at an eligible empty-geometry path item. -/
theorem selection_takes_paths_as_is_witness :
    selectionPaths (PageItem.pathItem noFlags 3 ⟨[], true⟩ :: [])
      = PageItem.pathItem noFlags 3 ⟨[], true⟩ :: selectionPaths []
    ∧ collectList [PageItem.pathItem noFlags 3 ⟨[], true⟩] "PathItem" = [] :=
  selection_takes_paths_as_is noFlags 3 ⟨[], true⟩ [] rfl rfl

/-- C10: two compound shapes with the same number (at least two) of
no-geometry sub-paths share the same nonempty key made of separator bars
only, so they are grouped as duplicates and the later one is removed;
the sentinel skip protects only the empty sub-shape list (and, as the
key of a single empty sub-path collapses to the empty string, the
one-sub-path case). -/
theorem empty_subpath_compounds_grouped (p n : ℕ) (c₁ c₂ : CompoundShape)
    (i₁ i₂ : ℕ) (hn : 2 ≤ n) (h₁ : c₁.pathItems.length = n)
    (h₂ : c₂.pathItems.length = n)
    (e₁ : ∀ s ∈ c₁.pathItems, s.pathPoints = [])
    (e₂ : ∀ s ∈ c₂.pathItems, s.pathPoints = []) :
    compoundPathToHash p c₁ = compoundPathToHash p c₂
    ∧ compoundPathToHash p c₁ ≠ ""
    ∧ removeDups (fun _ => true)
        (buildGroups (fun x : ℕ × CompoundShape => compoundPathToHash p x.2)
          [(i₁, c₁), (i₂, c₂)])
      = (1, [(i₂, c₂)]) := by
  have key : ∀ c : CompoundShape, c.pathItems.length = n →
      (∀ s ∈ c.pathItems, s.pathPoints = []) →
      compoundPathToHash p c = joinSep "|" (List.replicate n "") := by
    intro c hlen he
    have hmap : c.pathItems.map (pathToHash p) = List.replicate n "" := by
      refine List.eq_replicate_iff.mpr ⟨by simpa using hlen, ?_⟩
      intro b hb
      rcases List.mem_map.mp hb with ⟨s, hs, rfl⟩
      exact pathToHash_empty p s (he s hs)
    have hsort : List.insertionSort strLeProp (List.replicate n ("" : String))
        = List.replicate n "" :=
      List.perm_replicate.mp (List.perm_insertionSort _ _)
    have h0 : ¬ c.pathItems.length = 0 := by omega
    rw [compoundPathToHash, if_neg h0, hmap, hsort]
  have hkey1 := key c₁ h₁ e₁
  have hkey2 := key c₂ h₂ e₂
  have hjne : joinSep "|" (List.replicate n ("" : String)) ≠ "" := by
    intro hcon
    have hl := congrArg String.length hcon
    obtain ⟨k, rfl⟩ : ∃ k, n = k + 1 := ⟨n - 1, by omega⟩
    rw [joinSep_replicate_empty_length k] at hl
    have h0 : ("" : String).length = 0 := rfl
    omega
  have hne1 : compoundPathToHash p c₁ ≠ "" := by rw [hkey1]; exact hjne
  refine ⟨hkey1.trans hkey2.symm, hne1, ?_⟩
  rw [buildGroups_pair (fun x : ℕ × CompoundShape => compoundPathToHash p x.2)
    (i₁, c₁) (i₂, c₂) (compoundPathToHash p c₁) rfl (hkey2.trans hkey1.symm) hne1,
    removeDups_eq]
  simp [removalList]

/-- Witness for C10 at the two concrete compounds of two empty sub-paths. -/
theorem empty_subpath_compounds_grouped_witness :
    compoundPathToHash 1 compoundTwoEmptyA = compoundPathToHash 1 compoundTwoEmptyB
    ∧ compoundPathToHash 1 compoundTwoEmptyA ≠ ""
    ∧ removeDups (fun _ => true)
        (buildGroups (fun x : ℕ × CompoundShape => compoundPathToHash 1 x.2)
          [(0, compoundTwoEmptyA), (1, compoundTwoEmptyB)])
      = (1, [(1, compoundTwoEmptyB)]) :=
  empty_subpath_compounds_grouped 1 2 compoundTwoEmptyA compoundTwoEmptyB 0 1
    (by decide) rfl rfl (by decide) (by decide)

/-- Sanity check for the embedding: the scaled integer computed inside
toFixed is the floor of the half-up rounding expression on the absolute
value written as numerator over denominator. -/
theorem toFixed_rounds_half_up (f : ℕ) (x : ℚ) :
    (2 * x.num.natAbs * 10 ^ f + x.den) / (2 * x.den)
      = ⌊((x.num.natAbs : ℚ) / x.den) * 10 ^ f + 1 / 2⌋₊ := by
  have hd : (x.den : ℚ) ≠ 0 := by exact_mod_cast x.den_nz
  rw [show ((x.num.natAbs : ℚ) / x.den) * 10 ^ f + 1 / 2
      = ((2 * x.num.natAbs * 10 ^ f + x.den : ℕ) : ℚ) / ((2 * x.den : ℕ) : ℚ) by
    push_cast
    field_simp
    ring]
  rw [Nat.floor_div_eq_div]

/-- Sanity check for the embedding: concrete renders agree with JS
Number.prototype.toFixed, including the half-up tie and the sign. -/
theorem toFixed_examples :
    toFixed 1 (mkRat 1 2) = "0.5" ∧ toFixed 1 (mkRat (-1) 4) = "-0.3"
    ∧ toFixed 0 (mkRat 5 2) = "3" ∧ toFixed 1 (mkRat 0 1) = "0.0"
    ∧ toFixed 2 (mkRat 14999 100000) = "0.15"
    ∧ toFixed 1 (mkRat 14999 100000) = "0.1"
    ∧ toFixed 1 (mkRat 15001 100000) = "0.2"
    ∧ pathToHash 1 shapeClosedEx
        = "0.5,1.5,-0.3,0.0,5.0,2.0,PointType.SMOOTH|closed" := by
  decide
